import Mathlib

/-!
Verification development for the mass-updater pipeline
(server/routes.ts and server/storage.ts).

The TypeScript source is shallowly embedded: the external Bitrix24 API is
abstracted as an oracle argument, stateful storage becomes explicit list
passing, and JavaScript falsy/truthy tests on optional strings are made
explicit.  Definitions transcribe the source; theorems settle the frozen
claims about it.
-/

namespace MassUpdater

/-- JavaScript falsiness of an optional string value: `undefined`/`null`
or the empty string are falsy, every other string is truthy
(mirrors `if (!searchValue)`-style tests in routes.ts). -/
def jsFalsyOpt (v : Option String) : Bool :=
  match v with
  | none => true
  | some s => s = ""

/-- JavaScript `x || null` applied to an optional string, as used by
`FileStorage.createRecordResult` (storage.ts:119-121): `undefined`, `null`
and `""` all collapse to `null`. -/
def jsOrNull (v : Option String) : Option String :=
  match v with
  | none => none
  | some s => if s = "" then none else some s

/-- JavaScript template-literal rendering of a possibly-undefined string
(`${row[col]}` prints `undefined` when the property is absent). -/
def jsShow (v : Option String) : String :=
  match v with
  | none => "undefined"
  | some s => s

/-- An input row: a JavaScript object mapping column names to cell strings,
in key-insertion order. -/
abbrev Row := List (String × String)

/-- Property read `row[k]` on a row object. -/
def rowGet (row : Row) (k : String) : Option String :=
  (row.find? (fun p => p.1 = k)).map (·.2)

/-- An entity as returned by the Bitrix24 list endpoints: its `ID` and its
field map. -/
structure BEntity where
  id : String
  fields : List (String × String)
deriving DecidableEq, Repr

/-- Result of one `searchInBitrix24` invocation for a key column and value:
either the call threw, or it produced a result list (routes.ts:520-556,
with the HTTP interaction abstracted as an oracle). -/
inductive SearchOut where
  | thrown
  | ok (results : List BEntity)
deriving DecidableEq, Repr

/-- The value `searchInBitrix24` hands back to the matching loop: the
canonical entity together with the `isDuplicate` flag (absent, i.e. false,
for a unique match). -/
structure MatchedEntity where
  id : String
  fields : List (String × String)
  isDuplicate : Bool
deriving DecidableEq, Repr

/-- Tail of `searchInBitrix24` (routes.ts:558-564): zero results give
`null`; more than one result gives the first result spread together with
`isDuplicate: true`; exactly one result is returned as-is. -/
def classifyMatches (results : List BEntity) : Option MatchedEntity :=
  match results with
  | [] => none
  | e :: rest =>
    if rest.isEmpty then some ⟨e.id, e.fields, false⟩
    else some ⟨e.id, e.fields, true⟩

/-- The key-column loop of `processFileInBackground` (routes.ts:458-492)
for one row.  Returns the match outcome (matched entity, the key column
and search value that produced it) together with the ordered list of key
columns for which a search was actually issued.  A falsy row value is
skipped (`if (!searchValue) continue`); a thrown search is caught and the
loop continues; a non-null search result sets `found` and breaks. -/
def matchRow (search : String → String → SearchOut) (row : Row) :
    List String → Option (MatchedEntity × String × String) × List String
  | [] => (none, [])
  | c :: rest =>
    match rowGet row c with
    | none => matchRow search row rest
    | some s =>
      if s = "" then matchRow search row rest
      else
        match search c s with
        | .thrown =>
          let r := matchRow search row rest
          (r.1, c :: r.2)
        | .ok results =>
          match classifyMatches results with
          | none =>
            let r := matchRow search row rest
            (r.1, c :: r.2)
          | some m => (some (m, c, s), [c])

/-- Transcribes `Object.keys(row).filter(key => !keyColumns.includes(key))`
(routes.ts:469 and 496). -/
def nonKeyFields (row : Row) (keyCols : List String) : List String :=
  (row.map (·.1)).filter (fun k => !(keyCols.contains k))

/-- The argument object passed to `storage.createRecordResult`
(shared/schema.ts `insertRecordResultSchema`). -/
structure InsertRecordResult where
  sessionId : String
  rowIndex : Nat
  searchKey : String
  bitrixId : Option String := none
  field : String
  currentValue : Option String := none
  newValue : String
  action : String
  status : String
  errorMessage : Option String := none
  selected : Bool
deriving DecidableEq, Repr

/-- A stored record result (shared/schema.ts `recordResults` row). -/
structure RecordResult where
  id : String
  sessionId : String
  rowIndex : Nat
  searchKey : String
  bitrixId : Option String
  field : String
  currentValue : Option String
  newValue : String
  action : String
  status : String
  errorMessage : Option String
  selected : Bool
deriving DecidableEq, Repr

/-- The store insert `FileStorage.createRecordResult` (storage.ts:110-126): assigns the
fresh id and normalises falsy `action`/`status` to their defaults and
falsy `bitrixId`/`currentValue`/`errorMessage` to `null`. -/
def createRecordResult (id : String) (ins : InsertRecordResult) : RecordResult :=
  { id := id
    sessionId := ins.sessionId
    rowIndex := ins.rowIndex
    searchKey := ins.searchKey
    bitrixId := jsOrNull ins.bitrixId
    field := ins.field
    currentValue := jsOrNull ins.currentValue
    newValue := ins.newValue
    action := if ins.action = "" then "update" else ins.action
    status := if ins.status = "" then "pending" else ins.status
    errorMessage := jsOrNull ins.errorMessage
    selected := ins.selected }

/-- The insert objects `processFileInBackground` builds for one row
(routes.ts:467-509): one per non-key column, with the found branch
hard-coding `status: 'found'` and the not-found branch producing the
`ignore`/`not_found`/unselected entries. -/
def rowEntries (search : String → String → SearchOut) (row : Row)
    (keyCols : List String) (i : Nat) (sid : String) : List InsertRecordResult :=
  match (matchRow search row keyCols).1 with
  | some (m, keyCol, searchValue) =>
    (nonKeyFields row keyCols).map fun field =>
      { sessionId := sid
        rowIndex := i
        searchKey := keyCol ++ ": " ++ searchValue
        bitrixId := some m.id
        field := field
        currentValue := some ((rowGet m.fields field).getD "")
        newValue := (rowGet row field).getD ""
        action := "update"
        status := "found"
        errorMessage := none
        selected := true }
  | none =>
    (nonKeyFields row keyCols).map fun field =>
      { sessionId := sid
        rowIndex := i
        searchKey := String.intercalate ", "
          (keyCols.map (fun col => col ++ ": " ++ jsShow (rowGet row col)))
        bitrixId := none
        field := field
        currentValue := none
        newValue := (rowGet row field).getD ""
        action := "ignore"
        status := "not_found"
        errorMessage := none
        selected := false }

/-- The stored record results created for one row: each insert passes
through `createRecordResult`, which assigns ids (modelled by `idFn` over
the insert position). -/
def storedRowEntries (search : String → String → SearchOut) (row : Row)
    (keyCols : List String) (i : Nat) (sid : String) (idFn : Nat → String) :
    List RecordResult :=
  (rowEntries search row keyCols i sid).enum.map
    (fun p => createRecordResult (idFn p.1) p.2)

/-- The whole matching pass of `processFileInBackground`
(routes.ts:452-511): every row of the uploaded data is matched and its
record results appended to the store.  `search` may depend on the row
index; fresh ids are modelled by `idFn` over the global insert position. -/
def processFileStore (st : List RecordResult) (data : List Row)
    (search : Nat → String → String → SearchOut) (keyCols : List String)
    (sid : String) (idFn : Nat → String) : List RecordResult :=
  let inserts :=
    (data.enum.map (fun p => rowEntries (search p.1) p.2 keyCols p.1 sid)).flatten
  st ++ inserts.enum.map (fun p => createRecordResult (idFn p.1) p.2)

/-- Entity kinds distinguished by the batch executor. -/
inductive Kind where
  | contact
  | company
deriving DecidableEq, Repr

/-- JavaScript truthiness of an optional string (negation of falsiness). -/
def jsTruthyOpt (v : Option String) : Bool := !(jsFalsyOpt v)

/-- Transcribes `result.bitrixId!.startsWith('C')` (routes.ts:608): the executor
routes an entry to the company bulk call iff its external id starts with
the character `C` (written on the character list so that it evaluates in
the kernel). -/
def isCompanyId (r : RecordResult) : Bool :=
  (r.bitrixId.getD "").data.head? = some 'C'

/-- Entry selection at the start of `executeUpdatesInBackground`
(routes.ts:569-575): the session's record results, restricted to the
explicit id list when one is given, otherwise to the selected `update`
entries with a truthy external id. -/
def selectForExecution (st : List RecordResult) (sid : String)
    (recordIds : Option (List String)) : List RecordResult :=
  let results := st.filter (fun r => r.sessionId = sid)
  match recordIds with
  | some ids => results.filter (fun r => ids.contains r.id)
  | none =>
    results.filter (fun r =>
      r.selected && r.action = "update" && jsTruthyOpt r.bitrixId)

/-- Partition into groups of 50, the `for (let i = 0; i < results.length;
i += batchSize)` slicing of routes.ts:581-590, written with an explicit
fuel argument equal to the list length so that it reduces by evaluation. -/
def chunksOf50Fuel : Nat → List α → List (List α)
  | _, [] => []
  | 0, _ :: _ => []
  | fuel + 1, a :: l => ((a :: l).take 50) :: chunksOf50Fuel fuel ((a :: l).drop 50)

/-- The batch slices of size 50 built by `executeUpdatesInBackground`. -/
def chunksOf50 (l : List α) : List (List α) :=
  chunksOf50Fuel l.length l

/-- Update the stored record with the given id (`storage.updateRecordResult`,
storage.ts:133-139 / 321-327), leaving every other record unchanged. -/
def updateById (st : List RecordResult) (i : String)
    (f : RecordResult → RecordResult) : List RecordResult :=
  st.map (fun e => if e.id = i then f e else e)

/-- Outcome of the (up to) two bulk calls issued for one batch
(routes.ts:616-632): the contact call is issued first when the batch has
contact entries, then the company call when it has company entries; the
first throw aborts the `try` block.  `res k` is the oracle outcome of the
kind-`k` bulk call (`none` = success, `some m` = throws with message `m`). -/
def batchThrown (res : Kind → Option String) (batchResults : List RecordResult) :
    Option String :=
  let contactUpdates := batchResults.filter (fun r => !(isCompanyId r))
  let companyUpdates := batchResults.filter (fun r => isCompanyId r)
  match (if contactUpdates.isEmpty then none else res .contact) with
  | some m => some m
  | none => if companyUpdates.isEmpty then none else res .company

/-- Processing of one batch (routes.ts:593-648): the batch's entries are
recovered from the selected results by id; on success every entry is set
to `completed`, on a thrown bulk call every entry of the batch is set to
`error` with the message attached. -/
def runBatchStore (res : Kind → Option String) (results : List RecordResult)
    (ids : List String) (st : List RecordResult) : List RecordResult :=
  let batchResults := results.filter (fun r => ids.contains r.id)
  match batchThrown res batchResults with
  | none =>
    batchResults.foldl
      (fun acc r => updateById acc r.id (fun e => { e with status := "completed" })) st
  | some m =>
    batchResults.foldl
      (fun acc r => updateById acc r.id
        (fun e => { e with status := "error", errorMessage := some m })) st

/-- The sequential batch loop of `executeUpdatesInBackground`
(routes.ts:593-649): batch `i` is processed with the oracle outcomes
`apiRes i`, and the loop continues to the next batch whatever the
outcome of the previous one. -/
def execBatchesLoop (apiRes : Nat → Kind → Option String)
    (results : List RecordResult) :
    List (List String) → Nat → List RecordResult → List RecordResult
  | [], _, st => st
  | ids :: rest, i, st =>
    execBatchesLoop apiRes results rest (i + 1) (runBatchStore (apiRes i) results ids st)

/-- Observable events of the batch executor, used to state ordering
properties: creating an Execution Batch record in the store, issuing a
bulk call and writing an entry status. -/
inductive Ev where
  | createBatch (batchNumber : Nat) (recordIds : List String)
  | apiCall (batchIdx : Nat) (k : Kind)
  | setStatus (id : String) (status : String)
deriving DecidableEq, Repr

/-- Event trace of processing one batch: the contact call when contact
entries exist; the company call when the contact call did not throw and
company entries exist; then one status write per entry of the batch. -/
def batchTrace (res : Kind → Option String) (results : List RecordResult)
    (i : Nat) (ids : List String) : List Ev :=
  let batchResults := results.filter (fun r => ids.contains r.id)
  let contactUpdates := batchResults.filter (fun r => !(isCompanyId r))
  let companyUpdates := batchResults.filter (fun r => isCompanyId r)
  let contactEvs : List Ev :=
    if contactUpdates.isEmpty then [] else [.apiCall i .contact]
  let companyEvs : List Ev :=
    if contactUpdates.isEmpty = false && (res .contact).isSome then []
    else if companyUpdates.isEmpty then [] else [.apiCall i .company]
  let statusEvs : List Ev :=
    match batchThrown res batchResults with
    | none => batchResults.map (fun r => .setStatus r.id "completed")
    | some _ => batchResults.map (fun r => .setStatus r.id "error")
  contactEvs ++ companyEvs ++ statusEvs

/-- Event trace of the batch loop. -/
def execLoopTrace (apiRes : Nat → Kind → Option String)
    (results : List RecordResult) :
    List (List String) → Nat → List Ev
  | [], _ => []
  | ids :: rest, i =>
    batchTrace (apiRes i) results i ids ++ execLoopTrace apiRes results rest (i + 1)

/-- Result of one execution pass: final store, final session status and
the event trace. -/
structure ExecResult where
  store : List RecordResult
  sessionStatus : String
  trace : List Ev
deriving Repr

/-- The execution pass `executeUpdatesInBackground` (routes.ts:567-656): select the entries,
create one Execution Batch store record per slice of 50 (first loop,
routes.ts:581-590), then process the batches sequentially (second loop,
routes.ts:593-649), and finally set the session status to `completed`
whatever the batch outcomes were. -/
def executeUpdatesInBackground (st : List RecordResult) (sid : String)
    (recordIds : Option (List String)) (apiRes : Nat → Kind → Option String) :
    ExecResult :=
  let results := selectForExecution st sid recordIds
  let chunks := chunksOf50 results
  let idBatches := chunks.map (fun c => c.map (·.id))
  let createEvs := idBatches.enum.map (fun p => Ev.createBatch (p.1 + 1) p.2)
  { store := execBatchesLoop apiRes results idBatches 0 st
    sessionStatus := "completed"
    trace := createEvs ++ execLoopTrace apiRes results idBatches 0 }

/-- The undo route's selection (routes.ts:439-440): the session's entries
with status `updated` and a truthy external id. -/
def undoSelect (st : List RecordResult) (sid : String) : List RecordResult :=
  (st.filter (fun r => r.sessionId = sid)).filter
    (fun r => r.status = "updated" && jsTruthyOpt r.bitrixId)

/-- The loop of `revertChangesInBackground` (routes.ts:658-681): entries
with a `null`/`undefined` stored current value are skipped without any
call; otherwise a single-record update call is issued (`ok k` tells
whether the `k`-th issued call succeeds) and, on success, the entry's
status is set back to `found` and its new value to the reverted current
value.  The `try` wraps the whole loop, so the first thrown call aborts
the remaining entries. -/
def revertLoop (ok : Nat → Bool) (k : Nat) (recs : List RecordResult)
    (st : List RecordResult) : List RecordResult :=
  match recs with
  | [] => st
  | r :: rest =>
    match r.currentValue with
    | none => revertLoop ok k rest st
    | some cv =>
      if ok k then
        revertLoop ok (k + 1) rest
          (updateById st r.id (fun e => { e with status := "found", newValue := cv }))
      else st

/-- The whole undo operation (routes.ts:430-449 and 658-681). -/
def undoStore (st : List RecordResult) (sid : String) (ok : Nat → Bool) :
    List RecordResult :=
  revertLoop ok 0 (undoSelect st sid) st

/-- Outcome of the `validateSecurity` middleware (routes.ts:43-68). -/
inductive SecOutcome where
  | misconfigured
  | unauthenticated
  | forbiddenDomain
  | accepted (domain : Option String)
deriving DecidableEq, Repr

/-- Transcribes `process.env.ALLOWED_DOMAINS?.split(',') || []` (routes.ts:49). -/
def allowedDomainsOf (raw : Option String) : List String :=
  match raw with
  | none => []
  | some s => s.splitOn ","

/-- Transcribes `allowedDomains.includes(domain)`; `domain` may be undefined. -/
def jsIncludes (l : List String) (v : Option String) : Bool :=
  match v with
  | none => false
  | some d => l.contains d

/-- The `validateSecurity` middleware (routes.ts:43-68): a falsy
configured secret is a 500; a token different from the secret is a 401;
a non-empty allow-list not containing the caller's domain is a 403;
otherwise the request proceeds with `req.bitrixDomain = domain`. -/
def validateSecurity (secretToken allowedRaw token domain : Option String) :
    SecOutcome :=
  if jsFalsyOpt secretToken then .misconfigured
  else if token ≠ secretToken then .unauthenticated
  else if !(allowedDomainsOf allowedRaw).isEmpty
      && !(jsIncludes (allowedDomainsOf allowedRaw) domain) then .forbiddenDomain
  else .accepted domain

/-- A pipeline-triggering route guarded by `validateSecurity`: the
handler (which mutates pipeline state) runs only when the middleware
called `next()`; on any failure outcome the middleware responded and
returned first, so the state is handed back untouched. -/
def securedPipelineOp (secretToken allowedRaw token domain : Option String)
    (handler : List RecordResult → List RecordResult)
    (st : List RecordResult) : List RecordResult × SecOutcome :=
  match validateSecurity secretToken allowedRaw token domain with
  | .accepted d => (handler st, .accepted d)
  | out => (st, out)

/-- The limiter `rateLimiter.wait()` (routes.ts:71-86) as a function of the stored
time of last call and the invocation time `now`: returns the time slept
and the new `lastCall` value.  `setTimeout` is idealised as sleeping
exactly the requested time and `Date.now()` as exact, so the new
`lastCall` (the moment the guarded call starts) is `now` plus the time
slept. -/
def limiterWait (lastCall now : Nat) : Nat × Nat :=
  let timeSinceLastCall := now - lastCall
  if timeSinceLastCall < 500 then
    (500 - timeSinceLastCall, now + (500 - timeSinceLastCall))
  else (0, now)

/-- Start times of a sequence of rate-limited calls whose invocations
arrive at the given times, threading `rateLimiter.lastCall`. -/
def startsFrom (lastCall : Nat) : List Nat → List Nat
  | [] => []
  | now :: rest =>
    let s := (limiterWait lastCall now).2
    s :: startsFrom s rest

/-- Time consistency of an arrival sequence: each invocation arrives no
earlier than the stored time of last call it observes (clocks do not run
backwards across the limiter's own update). -/
def arrivalsOk (lastCall : Nat) : List Nat → Bool
  | [] => true
  | now :: rest =>
    decide (lastCall ≤ now) && arrivalsOk (limiterWait lastCall now).2 rest

/-- Outcome of the `fetch` performed by `callBitrixAPI`. -/
inductive FetchOut where
  | netError (msg : String)
  | resp (ok : Bool) (status : Nat) (statusText : String) (body : String)
deriving DecidableEq, Repr

/-- The client helper `callBitrixAPI` (routes.ts:89-111): `rateLimiter.wait()` runs before
anything else, so `lastCall` is updated on every invocation; then the
missing webhook configuration, a network error or a non-ok HTTP status
each throw, and an ok response returns its body.  The returned pair is
the new `lastCall` value and the call's result. -/
def callBitrixAPI (webhookUrl : Option String) (fetchOut : FetchOut)
    (lastCall now : Nat) : Nat × Except String String :=
  let lastCall2 := (limiterWait lastCall now).2
  match webhookUrl with
  | none => (lastCall2, .error "BITRIX_WEBHOOK_URL not configured")
  | some _ =>
    match fetchOut with
    | .netError m => (lastCall2, .error m)
    | .resp ok status statusText body =>
      if ok then (lastCall2, .ok body)
      else (lastCall2,
        .error ("Bitrix API error: " ++ toString status ++ " " ++ statusText))

/-- A stored upload session, reduced to the fields the results and
download routes read. -/
structure Session where
  id : String
  status : String
  totalRows : Nat
deriving DecidableEq, Repr

/-- A stored execution batch, reduced to the fields `getExecutionResults`
reads. -/
structure BatchRec where
  sessionId : String
  status : String
deriving DecidableEq, Repr

/-- A JavaScript value appearing in the execution-results object. -/
inductive JsVal where
  | num (n : Nat)
  | str (s : String)
  | arr (rows : List Row)
deriving DecidableEq, Repr

/-- The `sessions[id]` lookup (storage.ts:97-100). -/
def findSession (sessions : List Session) (sid : String) : Option Session :=
  sessions.find? (fun s => s.id = sid)

/-- The summary builder `FileStorage.getExecutionResults` (storage.ts:216-238), modelled as
the JavaScript object it actually constructs: the literal field list of
storage.ts:227-237 — summary counts only, with `successful` counting the
entries whose status is `success`.  No array-valued report field is part
of the constructed object. -/
def getExecutionResultsObj (sessions : List Session) (st : List RecordResult)
    (batches : List BatchRec) (sid : String) : Option (List (String × JsVal)) :=
  match findSession sessions sid with
  | none => none
  | some session =>
    let results := st.filter (fun r => r.sessionId = sid)
    let sessionBatches := batches.filter (fun b => b.sessionId = sid)
    let successful := (results.filter (fun r => r.status = "success")).length
    let failed := (results.filter (fun r => r.status = "error")).length
    let pending := (results.filter (fun r => r.status = "pending")).length
    some
      [("sessionId", .str sid),
       ("status", .str session.status),
       ("totalRows", .num results.length),
       ("processedRows", .num results.length),
       ("successful", .num successful),
       ("failed", .num failed),
       ("pending", .num pending),
       ("batches", .num sessionBatches.length),
       ("completedBatches",
         .num (sessionBatches.filter (fun b => b.status = "completed")).length)]

/-- Property read on a JavaScript object; an absent key is `undefined`. -/
def jsObjGet (obj : List (String × JsVal)) (key : String) : Option JsVal :=
  (obj.find? (fun p => p.1 = key)).map (·.2)

/-- Responses of the download route. -/
inductive DlResp where
  | sessionNotFound
  | invalidType
  | noData
  | csv (rows : List Row)
  | serverError
deriving DecidableEq, Repr

/-- The `/api/download/:sessionId/:type` handler (routes.ts:385-427): a
missing session is a 404; an unknown type is a 400; otherwise the handler
reads the `notFoundRecords`/`duplicateRecords`/`errorRecords` property of
the execution-results object and evaluates `data.length` — reading
`length` of a non-array (in particular of `undefined`) throws, and the
surrounding catch answers 500; an empty array is the 404 no-data signal
and a non-empty one is served as CSV. -/
def downloadRoute (sessions : List Session) (st : List RecordResult)
    (batches : List BatchRec) (sid ty : String) : DlResp :=
  match getExecutionResultsObj sessions st batches sid with
  | none => .sessionNotFound
  | some obj =>
    let key? : Option String :=
      match ty with
      | "not-found" => some "notFoundRecords"
      | "duplicates" => some "duplicateRecords"
      | "errors" => some "errorRecords"
      | _ => none
    match key? with
    | none => .invalidType
    | some key =>
      match jsObjGet obj key with
      | some (.arr rows) => if rows.length = 0 then .noData else .csv rows
      | _ => .serverError

/-- The `successful` count of `getExecutionResults` for a session: the
session's entries whose status is `success` (storage.ts:223). -/
def successCount (st : List RecordResult) (sid : String) : Nat :=
  ((st.filter (fun r => r.sessionId = sid)).filter
    (fun r => r.status = "success")).length

/-- A client-supplied `Partial<RecordResult>` as accepted by the preview
PATCH route (routes.ts:318-329): any subset of the mutable fields,
spread-merged over the stored record. -/
structure PartialRecord where
  searchKey : Option String := none
  bitrixId : Option (Option String) := none
  currentValue : Option (Option String) := none
  newValue : Option String := none
  action : Option String := none
  status : Option String := none
  errorMessage : Option (Option String) := none
  selected : Option Bool := none
deriving DecidableEq, Repr

/-- Transcribes `{ ...results[id], ...update.data }` (storage.ts:145). -/
def applyPartial (e : RecordResult) (p : PartialRecord) : RecordResult :=
  { e with
    searchKey := p.searchKey.getD e.searchKey
    bitrixId := p.bitrixId.getD e.bitrixId
    currentValue := p.currentValue.getD e.currentValue
    newValue := p.newValue.getD e.newValue
    action := p.action.getD e.action
    status := p.status.getD e.status
    errorMessage := p.errorMessage.getD e.errorMessage
    selected := p.selected.getD e.selected }

/-- The bulk edit `storage.updateRecordResults` as called by the preview PATCH route
(routes.ts:321-323, storage.ts:141-149): each update is merged into the
stored record with that id, unknown ids are skipped. -/
def applyEdits (st : List RecordResult)
    (upds : List (String × PartialRecord)) : List RecordResult :=
  upds.foldl (fun acc u => updateById acc u.1 (fun e => applyPartial e u.2)) st

/-- Record-result stores reachable by the operations the server exposes:
the empty initial store, a matching pass, an execution pass, an undo pass
and a preview PATCH with arbitrary client-supplied updates. -/
inductive Reach : List RecordResult → Prop where
  | init : Reach []
  | process (st : List RecordResult) (data : List Row)
      (search : Nat → String → String → SearchOut) (keyCols : List String)
      (sid : String) (idFn : Nat → String) :
      Reach st → Reach (processFileStore st data search keyCols sid idFn)
  | execute (st : List RecordResult) (sid : String)
      (recordIds : Option (List String)) (apiRes : Nat → Kind → Option String) :
      Reach st → Reach (executeUpdatesInBackground st sid recordIds apiRes).store
  | undo (st : List RecordResult) (sid : String) (ok : Nat → Bool) :
      Reach st → Reach (undoStore st sid ok)
  | edit (st : List RecordResult) (upds : List (String × PartialRecord)) :
      Reach st → Reach (applyEdits st upds)

/-- Reachability when preview PATCH updates never carry a `status` field:
the restriction of `Reach` forced by the C10 counterexample. -/
inductive ReachSafe : List RecordResult → Prop where
  | init : ReachSafe []
  | process (st : List RecordResult) (data : List Row)
      (search : Nat → String → String → SearchOut) (keyCols : List String)
      (sid : String) (idFn : Nat → String) :
      ReachSafe st → ReachSafe (processFileStore st data search keyCols sid idFn)
  | execute (st : List RecordResult) (sid : String)
      (recordIds : Option (List String)) (apiRes : Nat → Kind → Option String) :
      ReachSafe st → ReachSafe (executeUpdatesInBackground st sid recordIds apiRes).store
  | undo (st : List RecordResult) (sid : String) (ok : Nat → Bool) :
      ReachSafe st → ReachSafe (undoStore st sid ok)
  | edit (st : List RecordResult) (upds : List (String × PartialRecord)) :
      (∀ u ∈ upds, u.2.status = none) →
      ReachSafe st → ReachSafe (applyEdits st upds)

/-- Prefix of a list up to and including the first element satisfying
`p` (the whole list when no element does). -/
def upToFirst (p : α → Bool) : List α → List α
  | [] => []
  | a :: l => if p a then [a] else a :: upToFirst p l

/-- Spec-side description of one key-column probe: the column yields a
match iff its row value is non-empty and its search neither throws nor
returns zero results. -/
def keyColHit (search : String → String → SearchOut) (row : Row)
    (c : String) : Bool :=
  match rowGet row c with
  | none => false
  | some s =>
    if s = "" then false
    else
      match search c s with
      | .thrown => false
      | .ok results => (classifyMatches results).isSome

/-- Spec-side description of the key columns the matcher should search
for a row: the non-empty-valued key columns in priority order, up to and
including the first that yields a match. -/
def plannedTried (search : String → String → SearchOut) (row : Row)
    (keyCols : List String) : List String :=
  upToFirst (keyColHit search row)
    (keyCols.filter (fun c => !(jsFalsyOpt (rowGet row c))))

/-- The status merge a batch applies to one of its entries, by the
outcome of the batch's bulk calls. -/
def batchEntryUpdate (res : Kind → Option String)
    (batchResults : List RecordResult) (e : RecordResult) : RecordResult :=
  match batchThrown res batchResults with
  | none => { e with status := "completed" }
  | some m => { e with status := "error", errorMessage := some m }

/-- Per-entry view of the batch loop (proof device): the function applied
to each stored record by `execBatchesLoop`. -/
def loopFn (apiRes : Nat → Kind → Option String) (results : List RecordResult) :
    List (List String) → Nat → RecordResult → RecordResult
  | [], _ => fun e => e
  | ids :: rest, i => fun e =>
    loopFn apiRes results rest (i + 1)
      (if ((results.filter (fun r => ids.contains r.id)).map
            (fun r => r.id)).contains e.id
       then batchEntryUpdate (apiRes i) (results.filter (fun r => ids.contains r.id)) e
       else e)

/-! Concrete fixtures used by the claim theorems and witnesses. -/

/-- A Bitrix contact whose `NAME` is `Old`. -/
def entOld : BEntity := ⟨"7", [("NAME", "Old")]⟩

/-- A second Bitrix contact matching the same search. -/
def entOther : BEntity := ⟨"9", [("NAME", "Other")]⟩

/-- A matched entity that has no value for the `NAME` field. -/
def entNoName : BEntity := ⟨"7", []⟩

/-- Deterministic id supply standing in for `randomUUID`. -/
def idFnR : Nat → String := fun n => "r" ++ toString n

/-- A two-column input row with key column `EMAIL`. -/
def rowEN : Row := [("EMAIL", "a@b.com"), ("NAME", "New")]

/-- Search oracle returning two results for every query. -/
def searchTwo : String → String → SearchOut := fun _ _ => .ok [entOld, entOther]

/-- Search oracle returning one result without a `NAME` value. -/
def searchOne : String → String → SearchOut := fun _ _ => .ok [entNoName]

/-- Search oracle returning no results (row index taken first). -/
def searchNone : Nat → String → String → SearchOut := fun _ _ _ => .ok []

/-- A selected, matched contact entry ready for execution. -/
def entryContact : RecordResult :=
  ⟨"a", "s1", 0, "EMAIL: x", some "5", "NAME", some "o1", "n1", "update",
    "found", none, true⟩

/-- A selected, matched company entry (id prefixed with `C`) in the same
session. -/
def entryCompany : RecordResult :=
  ⟨"b", "s1", 1, "EMAIL: y", some "C9", "NAME", some "o2", "n2", "update",
    "found", none, true⟩

/-- Bulk-call oracle: every call succeeds. -/
def allCallsOk : Nat → Kind → Option String := fun _ _ => none

/-- Bulk-call oracle: contact calls succeed, company calls throw `boom`. -/
def companyFails : Nat → Kind → Option String := fun _ k =>
  match k with
  | .contact => none
  | .company => some "boom"

/-- Store produced by matching one not-found row in session `s1`. -/
def stNotFound : List RecordResult :=
  processFileStore [] [rowEN] searchNone ["EMAIL"] "s1" idFnR

/-- A preview PATCH payload setting the entry status to `success`. -/
def patchSuccess : List (String × PartialRecord) :=
  [("r0", { status := some "success" })]

/-- The store after the matching pass and the status-setting PATCH. -/
def stPatched : List RecordResult := applyEdits stNotFound patchSuccess

/-- An existing session record. -/
def sess1 : Session := ⟨"s1", "completed", 3⟩

/-! Claim theorems. -/

/-- C1: for a row whose key-column search returns more than one result,
`searchInBitrix24` does flag the first result as the canonical duplicate
match, but `processFileInBackground` stores every entry of the row with
status `found`, never `duplicate` — contradicting the schema's status
set, the preview `duplicates` filter and the flag it just computed.
Evaluated at a row whose email matches two contacts. -/
theorem c1_duplicate_rows_stored_as_found :
    classifyMatches [entOld, entOther] = some ⟨"7", [("NAME", "Old")], true⟩ ∧
    (storedRowEntries searchTwo rowEN ["EMAIL"] 0 "s1" idFnR).map
        (fun r => (r.status, r.bitrixId, r.currentValue)) =
      [("found", some "7", some "Old")] ∧
    ("found" : String) ≠ "duplicate" := by decide

/-- C3: a successful execution pass assigns status `completed` to its
entries, but the undo route selects entries with status `updated`, so
after a successful execution the undo selection is empty and the undo
pass reverts nothing and changes no entry. -/
theorem c3_undo_selects_nothing_after_execution :
    (executeUpdatesInBackground [entryContact] "s1" none allCallsOk).store.map
        (fun r => r.status) = ["completed"] ∧
    undoSelect (executeUpdatesInBackground [entryContact] "s1" none
      allCallsOk).store "s1" = [] ∧
    undoStore (executeUpdatesInBackground [entryContact] "s1" none
        allCallsOk).store "s1" (fun _ => true) =
      (executeUpdatesInBackground [entryContact] "s1" none allCallsOk).store := by
  decide

/-- C2 counterexample: in a batch holding one contact entry (`a`) and
one company entry (`b`), where the contact bulk call succeeds and the
company bulk call throws `boom`, the contact entry is also set to status
`error` — refuting the claim that only the failing kind's entries are
marked. -/
theorem c2_counterexample :
    companyFails 0 .contact = none ∧
    (executeUpdatesInBackground [entryContact, entryCompany] "s1" none
        companyFails).store.map
        (fun r => (r.id, isCompanyId r, r.status, r.errorMessage)) =
      [("a", false, "error", some "boom"), ("b", true, "error", some "boom")] := by
  decide

/-- C4 counterexample: for a matched row whose entity has no value for
the non-key field `NAME`, the stored Pending Change Entry's current value
is `null` (the storage layer collapses the empty string to `null`), not
the empty string the claim states. -/
theorem c4_counterexample :
    (storedRowEntries searchOne rowEN ["EMAIL"] 0 "s1" idFnR).map
        (fun r => (r.status, r.currentValue)) = [("found", none)] ∧
    (none : Option String) ≠ some "" := by decide

/-- C10 counterexample: the preview PATCH route forwards arbitrary
client-supplied fields, so a store in which an entry has status
`success` is reachable, and its `successful` count is 1, not 0. -/
theorem c10_counterexample :
    Reach stPatched ∧ successCount stPatched "s1" = 1 :=
  ⟨Reach.edit stNotFound patchSuccess
    (Reach.process [] [rowEN] searchNone ["EMAIL"] "s1" idFnR Reach.init),
   by decide⟩

/-- C6: the key columns for which the matcher actually issues a search
are exactly the non-empty-valued key columns in priority order up to and
including the first that yields at least one result — so empty-valued
key columns are skipped, a thrown search continues to the next key
column, and no key column is probed after the first match. -/
theorem c6_matcher_key_column_order (search : String → String → SearchOut)
    (row : Row) (keyCols : List String) :
    (matchRow search row keyCols).2 = plannedTried search row keyCols := by
  induction keyCols with
  | nil => rfl
  | cons c rest ih =>
    simp only [matchRow, plannedTried, List.filter_cons]
    cases hv : rowGet row c with
    | none =>
      simp only [hv, jsFalsyOpt, Bool.not_true, Bool.false_eq_true, if_false]
      exact ih
    | some s =>
      by_cases hs : s = ""
      · subst hs
        simp only [hv, jsFalsyOpt, Bool.not_true, Bool.false_eq_true,
          if_false, if_pos rfl]
        exact ih
      · simp only [hv, jsFalsyOpt, hs, Bool.not_false, if_true, if_neg hs]
        cases hsr : search c s with
        | thrown =>
          simp only [upToFirst, keyColHit, hv, hsr, if_neg hs, Option.isSome_none,
            Bool.false_eq_true, if_false, List.cons.injEq, true_and]
          exact ih
        | ok results =>
          cases hcm : classifyMatches results with
          | none =>
            simp only [upToFirst, keyColHit, hv, hsr, hcm, if_neg hs,
              Option.isSome_none, Bool.false_eq_true, if_false,
              List.cons.injEq, true_and]
            exact ih
          | some m =>
            simp [upToFirst, keyColHit, hv, hsr, hcm, hs]

theorem chunksOf50Fuel_length (fuel : Nat) : ∀ (l : List α), l.length ≤ fuel →
    (chunksOf50Fuel fuel l).length = (l.length + 49) / 50 := by
  induction fuel with
  | zero =>
    intro l h
    cases l with
    | nil => simp [chunksOf50Fuel]
    | cons a l => simp at h
  | succ fuel ih =>
    intro l h
    cases l with
    | nil => simp [chunksOf50Fuel]
    | cons a l =>
      have hdrop : ((a :: l).drop 50).length ≤ fuel := by
        simp only [List.length_drop, List.length_cons] at *
        omega
      simp only [chunksOf50Fuel, List.length_cons]
      rw [ih _ hdrop]
      simp only [List.length_drop, List.length_cons]
      omega

theorem chunksOf50_length (l : List α) :
    (chunksOf50 l).length = (l.length + 49) / 50 :=
  chunksOf50Fuel_length l.length l (Nat.le_refl _)

theorem chunksOf50Fuel_getD (fuel : Nat) : ∀ (l : List α) (i : Nat),
    l.length ≤ fuel →
    (chunksOf50Fuel fuel l).getD i [] = (l.drop (50 * i)).take 50 := by
  induction fuel with
  | zero =>
    intro l i h
    cases l with
    | nil => simp [chunksOf50Fuel]
    | cons a l => simp at h
  | succ fuel ih =>
    intro l i h
    cases l with
    | nil => simp [chunksOf50Fuel]
    | cons a l =>
      cases i with
      | zero => simp [chunksOf50Fuel]
      | succ j =>
        have hdrop : ((a :: l).drop 50).length ≤ fuel := by
          simp only [List.length_drop, List.length_cons] at *
          omega
        simp only [chunksOf50Fuel, List.getD_cons_succ]
        rw [ih _ j hdrop, List.drop_drop]
        have h50 : 50 + 50 * j = 50 * (j + 1) := by ring
        rw [h50]

theorem chunksOf50_getD (l : List α) (i : Nat) :
    (chunksOf50 l).getD i [] = (l.drop (50 * i)).take 50 :=
  chunksOf50Fuel_getD l.length l i (Nat.le_refl _)

theorem chunksOf50Fuel_flatten (fuel : Nat) : ∀ (l : List α), l.length ≤ fuel →
    (chunksOf50Fuel fuel l).flatten = l := by
  induction fuel with
  | zero =>
    intro l h
    cases l with
    | nil => simp [chunksOf50Fuel]
    | cons a l => simp at h
  | succ fuel ih =>
    intro l h
    cases l with
    | nil => simp [chunksOf50Fuel]
    | cons a l =>
      have hdrop : ((a :: l).drop 50).length ≤ fuel := by
        simp only [List.length_drop, List.length_cons] at *
        omega
      simp only [chunksOf50Fuel, List.flatten_cons]
      rw [ih _ hdrop, List.take_append_drop]

theorem chunksOf50_flatten (l : List α) : (chunksOf50 l).flatten = l :=
  chunksOf50Fuel_flatten l.length l (Nat.le_refl _)

theorem batchTrace_not_create (res : Kind → Option String)
    (results : List RecordResult) (i : Nat) (ids : List String) :
    ∀ e ∈ batchTrace res results i ids, ∀ n bids, e ≠ Ev.createBatch n bids := by
  intro e he n bids
  unfold batchTrace at he
  rcases List.mem_append.1 he with h | h
  · rcases List.mem_append.1 h with h | h
    · split at h
      · simp at h
      · simp only [List.mem_singleton] at h
        subst h
        simp
    · split at h
      · simp at h
      · split at h
        · simp at h
        · simp only [List.mem_singleton] at h
          subst h
          simp
  · split at h <;>
    · simp only [List.mem_map] at h
      obtain ⟨r, _, rfl⟩ := h
      simp

theorem execLoopTrace_not_create (apiRes : Nat → Kind → Option String)
    (results : List RecordResult) :
    ∀ (idBs : List (List String)) (i : Nat),
      ∀ e ∈ execLoopTrace apiRes results idBs i,
        ∀ n bids, e ≠ Ev.createBatch n bids := by
  intro idBs
  induction idBs with
  | nil => intro i e he; simp [execLoopTrace] at he
  | cons ids rest ih =>
    intro i e he n bids
    unfold execLoopTrace at he
    rcases List.mem_append.1 he with h | h
    · exact batchTrace_not_create _ _ _ _ e h n bids
    · exact ih (i + 1) e h n bids

/-- C5: the batch executor partitions the N selected entries into
`ceil(N/50)` batches; batch `i` is exactly the contiguous slice
`[50i, 50(i+1))` of the selected entries; and the trace of the execution
pass is all the Execution Batch store creations (one per slice, numbered
from 1) followed by events none of which is a batch creation — so every
batch record is created before any batch is executed. -/
theorem c5_batch_partitioning (st : List RecordResult) (sid : String)
    (recordIds : Option (List String)) (apiRes : Nat → Kind → Option String) :
    (chunksOf50 (selectForExecution st sid recordIds)).length
        = ((selectForExecution st sid recordIds).length + 49) / 50 ∧
    (∀ i, (chunksOf50 (selectForExecution st sid recordIds)).getD i []
        = ((selectForExecution st sid recordIds).drop (50 * i)).take 50) ∧
    (executeUpdatesInBackground st sid recordIds apiRes).trace
      = (((chunksOf50 (selectForExecution st sid recordIds)).map
            (fun c => c.map (fun r => r.id))).enum.map
          (fun p => Ev.createBatch (p.1 + 1) p.2))
        ++ execLoopTrace apiRes (selectForExecution st sid recordIds)
            ((chunksOf50 (selectForExecution st sid recordIds)).map
              (fun c => c.map (fun r => r.id))) 0 ∧
    (∀ e ∈ execLoopTrace apiRes (selectForExecution st sid recordIds)
        ((chunksOf50 (selectForExecution st sid recordIds)).map
          (fun c => c.map (fun r => r.id))) 0,
      ∀ n bids, e ≠ Ev.createBatch n bids) :=
  ⟨chunksOf50_length _,
   fun i => chunksOf50_getD _ i,
   rfl,
   fun e he => execLoopTrace_not_create apiRes _ _ 0 e he⟩

/-- C5 witness: the partitioning theorem instantiated at a concrete
two-entry selection (one batch, slice equal to the whole selection). -/
theorem c5_batch_partitioning_witness :
    (chunksOf50 (selectForExecution [entryContact, entryCompany] "s1"
        none)).length
      = ((selectForExecution [entryContact, entryCompany] "s1" none).length
          + 49) / 50 ∧
    (chunksOf50 (selectForExecution [entryContact, entryCompany] "s1"
        none)).getD 0 []
      = ((selectForExecution [entryContact, entryCompany] "s1" none).drop
          (50 * 0)).take 50 :=
  ⟨(c5_batch_partitioning [entryContact, entryCompany] "s1" none allCallsOk).1,
   (c5_batch_partitioning [entryContact, entryCompany] "s1" none
     allCallsOk).2.1 0⟩

/-- C6 witness: the matcher-order theorem instantiated at a row lacking
the first key column, which is therefore skipped before the matching
search on `EMAIL`. -/
theorem c6_matcher_key_column_order_witness :
    (matchRow searchTwo rowEN ["PHONE", "EMAIL"]).2
      = plannedTried searchTwo rowEN ["PHONE", "EMAIL"] :=
  c6_matcher_key_column_order searchTwo rowEN ["PHONE", "EMAIL"]

theorem limiterWait_ge (lastCall now : Nat) (h : lastCall ≤ now) :
    lastCall + 500 ≤ (limiterWait lastCall now).2 := by
  simp only [limiterWait]
  split <;> simp <;> omega

theorem startsFrom_ge (arr : List Nat) : ∀ lastCall : Nat,
    arrivalsOk lastCall arr = true →
    ∀ x ∈ startsFrom lastCall arr, lastCall + 500 ≤ x := by
  induction arr with
  | nil => intro lastCall _ x hx; simp [startsFrom] at hx
  | cons now rest ih =>
    intro lastCall h x hx
    unfold arrivalsOk at h
    rw [Bool.and_eq_true, decide_eq_true_eq] at h
    unfold startsFrom at hx
    rcases List.mem_cons.1 hx with rfl | hx
    · exact limiterWait_ge lastCall now h.1
    · have h1 := limiterWait_ge lastCall now h.1
      have h2 := ih _ h.2 x hx
      omega

theorem startsFrom_pairwise (arr : List Nat) : ∀ lastCall : Nat,
    arrivalsOk lastCall arr = true →
    List.Pairwise (fun a b => a + 500 ≤ b) (startsFrom lastCall arr) := by
  induction arr with
  | nil => intro lastCall _; simp [startsFrom]
  | cons now rest ih =>
    intro lastCall h
    unfold arrivalsOk at h
    rw [Bool.and_eq_true, decide_eq_true_eq] at h
    unfold startsFrom
    refine List.Pairwise.cons ?_ (ih _ h.2)
    intro x hx
    exact startsFrom_ge rest _ h.2 x hx

/-- C7: for a time-consistent sequence of invocations the rate-limited
call start times are pairwise at least 500 ms apart; the limiter sleeps
exactly the remaining part of the 500 ms interval when it has not
elapsed and does not sleep at all otherwise; and `callBitrixAPI` updates
the shared time of last call on every invocation — also when the call
then fails for a missing webhook configuration, a network error or a
non-ok HTTP status. -/
theorem c7_rate_limiter (lastCall : Nat) (arr : List Nat)
    (h : arrivalsOk lastCall arr = true) (now : Nat)
    (webhookUrl : Option String) (fetchOut : FetchOut) :
    List.Pairwise (fun a b => a + 500 ≤ b) (startsFrom lastCall arr) ∧
    (now - lastCall < 500 →
      (limiterWait lastCall now).1 = 500 - (now - lastCall)) ∧
    (500 ≤ now - lastCall → (limiterWait lastCall now).1 = 0) ∧
    (callBitrixAPI webhookUrl fetchOut lastCall now).1
      = (limiterWait lastCall now).2 := by
  refine ⟨startsFrom_pairwise arr lastCall h, ?_, ?_, ?_⟩
  · intro hlt
    simp only [limiterWait]
    rw [if_pos hlt]
  · intro hge
    simp only [limiterWait]
    rw [if_neg (by omega)]
  · cases webhookUrl with
    | none => rfl
    | some u =>
      cases fetchOut with
      | netError m => rfl
      | resp ok status statusText body =>
        by_cases hok : ok = true
        · simp [callBitrixAPI, hok]
        · simp [callBitrixAPI, hok]

/-- C7 witness: the theorem instantiated at a concrete consistent arrival
sequence and a concrete failing invocation. -/
theorem c7_rate_limiter_witness :
    List.Pairwise (fun a b => a + 500 ≤ b) (startsFrom 1000 [2000, 2100]) ∧
    (1300 - 1000 < 500 → (limiterWait 1000 1300).1 = 500 - (1300 - 1000)) ∧
    (500 ≤ 1300 - 1000 → (limiterWait 1000 1300).1 = 0) ∧
    (callBitrixAPI none (.netError "down") 1000 1300).1
      = (limiterWait 1000 1300).2 :=
  c7_rate_limiter 1000 [2000, 2100] (by decide) 1300 none (.netError "down")

/-- C8: the security gate accepts a request exactly when the caller's
token equals the (truthy) configured secret and, whenever the configured
domain allow-list is non-empty, the caller's domain is in the list; a
wrong token yields the `unauthenticated` (401) outcome, a good token
with a disallowed domain yields the distinct `forbiddenDomain` (403)
outcome; and on every non-accepted outcome the guarded pipeline handler
never runs, so the pipeline state is returned untouched. -/
theorem c8_security_gate (secretToken allowedRaw token domain : Option String)
    (handler : List RecordResult → List RecordResult)
    (st : List RecordResult) :
    ((∃ d, validateSecurity secretToken allowedRaw token domain = .accepted d) ↔
      (jsFalsyOpt secretToken = false ∧ token = secretToken ∧
        (allowedDomainsOf allowedRaw ≠ [] →
          jsIncludes (allowedDomainsOf allowedRaw) domain = true))) ∧
    (jsFalsyOpt secretToken = false → token ≠ secretToken →
      validateSecurity secretToken allowedRaw token domain = .unauthenticated) ∧
    (jsFalsyOpt secretToken = false → token = secretToken →
      allowedDomainsOf allowedRaw ≠ [] →
      jsIncludes (allowedDomainsOf allowedRaw) domain = false →
      validateSecurity secretToken allowedRaw token domain = .forbiddenDomain) ∧
    (SecOutcome.unauthenticated ≠ SecOutcome.forbiddenDomain) ∧
    (∀ out, validateSecurity secretToken allowedRaw token domain = out →
      (∀ d, out ≠ .accepted d) →
      (securedPipelineOp secretToken allowedRaw token domain handler st).1 = st) := by
  refine ⟨⟨?_, ?_⟩, ?_, ?_, by simp, ?_⟩
  · rintro ⟨d, hd⟩
    unfold validateSecurity at hd
    by_cases h1 : jsFalsyOpt secretToken = true
    · rw [if_pos h1] at hd
      exact absurd hd (by simp)
    · rw [if_neg h1] at hd
      by_cases h2 : token = secretToken
      · rw [if_neg (by simp [h2])] at hd
        refine ⟨by simpa using h1, h2, ?_⟩
        intro hne
        by_cases h3 : jsIncludes (allowedDomainsOf allowedRaw) domain = true
        · exact h3
        · exfalso
          have hne2 : (allowedDomainsOf allowedRaw).isEmpty = false := by
            cases hL : allowedDomainsOf allowedRaw with
            | nil => exact absurd hL hne
            | cons a l => rfl
          have h3f : jsIncludes (allowedDomainsOf allowedRaw) domain = false := by
            simpa using h3
          rw [if_pos (by simp [hne2, h3f])] at hd
          exact absurd hd (by simp)
      · rw [if_pos h2] at hd
        exact absurd hd (by simp)
  · rintro ⟨hf, h2, h3⟩
    refine ⟨domain, ?_⟩
    unfold validateSecurity
    rw [if_neg (by simp [hf]), if_neg (by simp [h2])]
    by_cases hne : allowedDomainsOf allowedRaw = []
    · rw [if_neg (by simp [hne])]
    · have h3t := h3 hne
      rw [if_neg (by simp [h3t])]
  · intro h1 h2
    unfold validateSecurity
    rw [if_neg (by simp [h1]), if_pos h2]
  · intro h1 h2 hne hinc
    have hne2 : (allowedDomainsOf allowedRaw).isEmpty = false := by
      cases hL : allowedDomainsOf allowedRaw with
      | nil => exact absurd hL hne
      | cons a l => rfl
    unfold validateSecurity
    rw [if_neg (by simp [h1]), if_neg (by simp [h2]),
      if_pos (by simp [hne2, hinc])]
  · intro out hout hno
    unfold securedPipelineOp
    rw [hout]
    cases out with
    | accepted d => exact absurd rfl (hno d)
    | misconfigured => rfl
    | unauthenticated => rfl
    | forbiddenDomain => rfl

/-- C8 witness: the theorem instantiated at a concrete configuration
with a non-empty allow-list, a wrong-token caller and a prepared store. -/
theorem c8_security_gate_witness :
    ((∃ d, validateSecurity (some "sec") (some "x.bitrix24.com")
        (some "bad") (some "x.bitrix24.com") = .accepted d) ↔
      (jsFalsyOpt (some "sec") = false ∧ (some "bad" : Option String) = some "sec" ∧
        (allowedDomainsOf (some "x.bitrix24.com") ≠ [] →
          jsIncludes (allowedDomainsOf (some "x.bitrix24.com"))
            (some "x.bitrix24.com") = true))) ∧
    (jsFalsyOpt (some "sec") = false → (some "bad" : Option String) ≠ some "sec" →
      validateSecurity (some "sec") (some "x.bitrix24.com") (some "bad")
        (some "x.bitrix24.com") = .unauthenticated) ∧
    (jsFalsyOpt (some "sec") = false → (some "bad" : Option String) = some "sec" →
      allowedDomainsOf (some "x.bitrix24.com") ≠ [] →
      jsIncludes (allowedDomainsOf (some "x.bitrix24.com"))
        (some "x.bitrix24.com") = false →
      validateSecurity (some "sec") (some "x.bitrix24.com") (some "bad")
        (some "x.bitrix24.com") = .forbiddenDomain) ∧
    (SecOutcome.unauthenticated ≠ SecOutcome.forbiddenDomain) ∧
    (∀ out, validateSecurity (some "sec") (some "x.bitrix24.com") (some "bad")
        (some "x.bitrix24.com") = out →
      (∀ d, out ≠ .accepted d) →
      (securedPipelineOp (some "sec") (some "x.bitrix24.com") (some "bad")
        (some "x.bitrix24.com") (fun _ => []) [entryContact]).1 = [entryContact]) :=
  c8_security_gate (some "sec") (some "x.bitrix24.com") (some "bad")
    (some "x.bitrix24.com") (fun _ => []) [entryContact]

/-- C9: for every existing session and every valid report kind the
download route answers a 500 server error — the execution-results object
constructed by `getExecutionResults` carries only summary counts, so the
route's read of `notFoundRecords`/`duplicateRecords`/`errorRecords`
yields `undefined` and `data.length` throws — and in particular a
session with zero entries of the kind never receives the `noData` (404)
signal the claim states. -/
theorem c9_download_always_throws (sessions : List Session)
    (st : List RecordResult) (batches : List BatchRec) (sid ty : String)
    (hs : findSession sessions sid ≠ none)
    (hty : ty = "not-found" ∨ ty = "duplicates" ∨ ty = "errors") :
    downloadRoute sessions st batches sid ty = .serverError ∧
    downloadRoute sessions st batches sid ty ≠ .noData := by
  cases hfound : findSession sessions sid with
  | none => exact absurd hfound hs
  | some session =>
    have hroute : downloadRoute sessions st batches sid ty = .serverError := by
      unfold downloadRoute getExecutionResultsObj
      rw [hfound]
      rcases hty with rfl | rfl | rfl <;>
        simp [jsObjGet, List.find?]
    exact ⟨hroute, by rw [hroute]; simp⟩

/-- C9 witness: the theorem instantiated at an existing session with
zero `not_found` entries: the `not-found` report download answers the
500 server error, not the 404 no-data signal. -/
theorem c9_download_always_throws_witness :
    downloadRoute [sess1] [] [] "s1" "not-found" = .serverError ∧
    downloadRoute [sess1] [] [] "s1" "not-found" ≠ .noData :=
  c9_download_always_throws [sess1] [] [] "s1" "not-found" (by decide)
    (Or.inl rfl)

theorem jsOrNull_getD (v : Option String) :
    jsOrNull (some (v.getD "")) = jsOrNull v := by
  cases v <;> simp [jsOrNull]

/-- C4 (amended): a row with N non-key columns always yields exactly N
stored Pending Change Entries; for a matched row each entry has action
`update`, selected `true`, new value the row's value for the field (the
empty string when absent) and current value the matched entity's value
for the field normalised by the storage layer — `null` instead of the
empty string when the entity has no (or an empty) value for it; for a
not-found row each entry has action `ignore`, status `not_found`,
selected `false`, an absent current value and the row's value as new
value. -/
theorem c4_amended (search : String → String → SearchOut) (row : Row)
    (keyCols : List String) (i : Nat) (sid : String) (idFn : Nat → String) :
    (storedRowEntries search row keyCols i sid idFn).length
        = (nonKeyFields row keyCols).length ∧
    (∀ m keyCol searchValue,
      (matchRow search row keyCols).1 = some (m, keyCol, searchValue) →
      storedRowEntries search row keyCols i sid idFn
        = (nonKeyFields row keyCols).enum.map (fun p =>
            { id := idFn p.1
              sessionId := sid
              rowIndex := i
              searchKey := keyCol ++ ": " ++ searchValue
              bitrixId := jsOrNull (some m.id)
              field := p.2
              currentValue := jsOrNull (rowGet m.fields p.2)
              newValue := (rowGet row p.2).getD ""
              action := "update"
              status := "found"
              errorMessage := none
              selected := true })) ∧
    ((matchRow search row keyCols).1 = none →
      storedRowEntries search row keyCols i sid idFn
        = (nonKeyFields row keyCols).enum.map (fun p =>
            { id := idFn p.1
              sessionId := sid
              rowIndex := i
              searchKey := String.intercalate ", "
                (keyCols.map (fun col => col ++ ": " ++ jsShow (rowGet row col)))
              bitrixId := none
              field := p.2
              currentValue := none
              newValue := (rowGet row p.2).getD ""
              action := "ignore"
              status := "not_found"
              errorMessage := none
              selected := false })) := by
  refine ⟨?_, ?_, ?_⟩
  · unfold storedRowEntries rowEntries
    cases h : (matchRow search row keyCols).1 with
    | none => simp
    | some t => simp
  · intro m keyCol searchValue hm
    unfold storedRowEntries rowEntries
    rw [hm, List.enum_map, List.map_map]
    refine congrArg (fun fn => List.map fn (nonKeyFields row keyCols).enum)
      (funext fun p => ?_)
    simp only [createRecordResult, jsOrNull_getD, Prod.map, Function.comp]
    simp [jsOrNull]
  · intro hm
    unfold storedRowEntries rowEntries
    rw [hm, List.enum_map, List.map_map]
    refine congrArg (fun fn => List.map fn (nonKeyFields row keyCols).enum)
      (funext fun p => ?_)
    simp [createRecordResult, jsOrNull, Prod.map]

/-- C4 witness: the amended theorem applied to a concrete matched row
whose entity lacks the `NAME` field (stored current value `null`) and to
a concrete not-found row. -/
theorem c4_amended_witness :
    storedRowEntries searchOne rowEN ["EMAIL"] 0 "s1" idFnR
      = (nonKeyFields rowEN ["EMAIL"]).enum.map (fun p =>
          { id := idFnR p.1
            sessionId := "s1"
            rowIndex := 0
            searchKey := "EMAIL" ++ ": " ++ "a@b.com"
            bitrixId := jsOrNull (some (entNoName.id))
            field := p.2
            currentValue := jsOrNull (rowGet entNoName.fields p.2)
            newValue := (rowGet rowEN p.2).getD ""
            action := "update"
            status := "found"
            errorMessage := none
            selected := true }) :=
  (c4_amended searchOne rowEN ["EMAIL"] 0 "s1" idFnR).2.1
    ⟨entNoName.id, entNoName.fields, false⟩ "EMAIL" "a@b.com" (by decide)

theorem foldl_updateById_eq_map (f : RecordResult → RecordResult)
    (hid : ∀ e, (f e).id = e.id) (hf : ∀ e, f (f e) = f e) :
    ∀ (rs : List RecordResult) (st : List RecordResult),
      rs.foldl (fun acc r => updateById acc r.id f) st
        = st.map (fun e =>
            if (rs.map (fun r => r.id)).contains e.id then f e else e) := by
  intro rs
  induction rs with
  | nil =>
    intro st
    simp [updateById]
  | cons r rs ih =>
    intro st
    simp only [List.foldl_cons]
    rw [ih]
    unfold updateById
    rw [List.map_map]
    refine congrArg (fun fn => List.map fn st) (funext fun e => ?_)
    show (if (rs.map (fun r => r.id)).contains
            (if e.id = r.id then f e else e).id = true
          then f (if e.id = r.id then f e else e)
          else (if e.id = r.id then f e else e))
        = if ((r :: rs).map (fun r => r.id)).contains e.id = true then f e else e
    by_cases h1 : e.id = r.id
    · rw [if_pos h1, hid e]
      by_cases h2 : (rs.map (fun r => r.id)).contains e.id = true
      · rw [if_pos h2, hf e]
        have hc : ((r :: rs).map (fun r => r.id)).contains e.id = true := by
          simp only [List.map_cons, List.contains_cons, h2, Bool.or_true]
        rw [if_pos hc]
      · have h2f : (rs.map (fun r => r.id)).contains e.id = false := by
          simpa using h2
        rw [if_neg h2]
        have hc : ((r :: rs).map (fun r => r.id)).contains e.id = true := by
          simp [h1]
        rw [if_pos hc]
    · rw [if_neg h1]
      have hc : ((r :: rs).map (fun r => r.id)).contains e.id
          = (rs.map (fun r => r.id)).contains e.id := by
        simp only [List.map_cons, List.contains_cons]
        have : (e.id == r.id) = false := by simp [h1]
        rw [this, Bool.false_or]
      rw [hc]

theorem runBatchStore_eq_map (res : Kind → Option String)
    (results : List RecordResult) (ids : List String)
    (st : List RecordResult) :
    runBatchStore res results ids st
      = st.map (fun e =>
          if ((results.filter (fun r => ids.contains r.id)).map
                (fun r => r.id)).contains e.id
          then batchEntryUpdate res (results.filter (fun r => ids.contains r.id)) e
          else e) := by
  cases h : batchThrown res (results.filter (fun r => ids.contains r.id)) with
  | none =>
    simp only [runBatchStore, h]
    rw [foldl_updateById_eq_map (fun e => { e with status := "completed" })
      (fun e => rfl) (fun e => rfl)]
    refine congrArg (fun fn => List.map fn st) (funext fun e => ?_)
    simp only [batchEntryUpdate, h]
  | some m =>
    simp only [runBatchStore, h]
    rw [foldl_updateById_eq_map
      (fun e => { e with status := "error", errorMessage := some m })
      (fun e => rfl) (fun e => rfl)]
    refine congrArg (fun fn => List.map fn st) (funext fun e => ?_)
    simp only [batchEntryUpdate, h]

theorem execBatchesLoop_eq_map (apiRes : Nat → Kind → Option String)
    (results : List RecordResult) :
    ∀ (idBs : List (List String)) (i : Nat) (st : List RecordResult),
      execBatchesLoop apiRes results idBs i st
        = st.map (loopFn apiRes results idBs i) := by
  intro idBs
  induction idBs with
  | nil =>
    intro i st
    simp [execBatchesLoop, loopFn]
  | cons ids rest ih =>
    intro i st
    simp only [execBatchesLoop]
    rw [ih, runBatchStore_eq_map, List.map_map]
    rfl

theorem batchEntryUpdate_id (res : Kind → Option String)
    (batchResults : List RecordResult) (e : RecordResult) :
    (batchEntryUpdate res batchResults e).id = e.id := by
  unfold batchEntryUpdate
  split <;> rfl

theorem loopFn_notmem (apiRes : Nat → Kind → Option String)
    (results : List RecordResult) :
    ∀ (idBs : List (List String)) (i : Nat) (e : RecordResult),
      (∀ j, ((results.filter (fun r => (idBs.getD j []).contains r.id)).map
          (fun r => r.id)).contains e.id = false) →
      loopFn apiRes results idBs i e = e := by
  intro idBs
  induction idBs with
  | nil => intro i e _; rfl
  | cons ids rest ih =>
    intro i e h
    have h0 := h 0
    simp only [List.getD_cons_zero] at h0
    simp only [loopFn]
    have hcond : ¬(((results.filter (fun r => ids.contains r.id)).map
        (fun r => r.id)).contains e.id = true) := by
      rw [h0]
      simp
    rw [if_neg hcond]
    exact ih (i + 1) e (fun j => by
      have hj := h (j + 1)
      simpa using hj)

theorem loopFn_eval (apiRes : Nat → Kind → Option String)
    (results : List RecordResult) :
    ∀ (idBs : List (List String)) (i0 k : Nat) (e : RecordResult),
      ((results.filter (fun r => (idBs.getD k []).contains r.id)).map
          (fun r => r.id)).contains e.id = true →
      (∀ j, j ≠ k →
        ((results.filter (fun r => (idBs.getD j []).contains r.id)).map
            (fun r => r.id)).contains e.id = false) →
      loopFn apiRes results idBs i0 e
        = batchEntryUpdate (apiRes (i0 + k))
            (results.filter (fun r => (idBs.getD k []).contains r.id)) e := by
  intro idBs
  induction idBs with
  | nil =>
    intro i0 k e hin hout
    exfalso
    simp at hin
  | cons ids rest ih =>
    intro i0 k e hin hout
    cases k with
    | zero =>
      simp only [List.getD_cons_zero] at hin ⊢
      simp only [loopFn]
      rw [if_pos hin, Nat.add_zero]
      refine loopFn_notmem apiRes results rest (i0 + 1) _ (fun j => ?_)
      have hj := hout (j + 1) (by omega)
      simp only [List.getD_cons_succ] at hj
      rw [batchEntryUpdate_id]
      exact hj
    | succ j =>
      have h0 := hout 0 (by omega)
      simp only [List.getD_cons_zero] at h0
      simp only [loopFn]
      have hcond : ¬(((results.filter (fun r => ids.contains r.id)).map
          (fun r => r.id)).contains e.id = true) := by
        rw [h0]
        simp
      rw [if_neg hcond]
      have hin2 := hin
      simp only [List.getD_cons_succ] at hin2
      have hout2 : ∀ j2, j2 ≠ j →
          ((results.filter (fun r => (rest.getD j2 []).contains r.id)).map
              (fun r => r.id)).contains e.id = false := by
        intro j2 hne
        have hj2 := hout (j2 + 1) (by omega)
        simpa using hj2
      rw [ih (i0 + 1) j e hin2 hout2]
      have harith : i0 + 1 + j = i0 + (j + 1) := by omega
      rw [harith]
      simp only [List.getD_cons_succ]

theorem slice_disjoint_of_lt (L : List String) (hnd : L.Nodup) (k j : Nat)
    (hkj : k < j) (x : String) (hk : x ∈ (L.drop (50 * k)).take 50)
    (hj : x ∈ (L.drop (50 * j)).take 50) : False := by
  have hC : x ∈ L.drop (50 * k + 50) := by
    have h1 : x ∈ L.drop (50 * j) := List.mem_of_mem_take hj
    have h2 : L.drop (50 * j)
        = (L.drop (50 * k + 50)).drop (50 * j - (50 * k + 50)) := by
      rw [List.drop_drop]
      congr 1
      omega
    rw [h2] at h1
    exact List.mem_of_mem_drop h1
  have hdec : L = L.take (50 * k)
      ++ ((L.drop (50 * k)).take 50 ++ L.drop (50 * k + 50)) := by
    have hdd : (L.drop (50 * k)).drop 50 = L.drop (50 * k + 50) := by
      rw [List.drop_drop]
    rw [← hdd, List.take_append_drop, List.take_append_drop]
  have hnd2 : (L.take (50 * k)
      ++ ((L.drop (50 * k)).take 50 ++ L.drop (50 * k + 50))).Nodup := hdec ▸ hnd
  rw [List.nodup_append] at hnd2
  obtain ⟨-, h2, -⟩ := hnd2
  rw [List.nodup_append] at h2
  obtain ⟨-, -, hdisj⟩ := h2
  exact hdisj hk hC

theorem slice_unique (L : List String) (hnd : L.Nodup) (k j : Nat)
    (x : String) (hk : x ∈ (L.drop (50 * k)).take 50)
    (hj : x ∈ (L.drop (50 * j)).take 50) : k = j := by
  rcases Nat.lt_trichotomy k j with h | h | h
  · exact absurd (slice_disjoint_of_lt L hnd k j h x hk hj) (fun f => f)
  · exact h
  · exact absurd (slice_disjoint_of_lt L hnd j k h x hj hk) (fun f => f)

theorem filter_ids_middle (pre mid post : List RecordResult)
    (h : ((pre ++ (mid ++ post)).map (fun r => r.id)).Nodup) :
    (pre ++ (mid ++ post)).filter
        (fun r => (mid.map (fun r => r.id)).contains r.id) = mid := by
  rw [List.filter_append, List.filter_append]
  have hmap : (pre.map (fun r => r.id)
      ++ (mid.map (fun r => r.id) ++ post.map (fun r => r.id))).Nodup := by
    simpa using h
  rw [List.nodup_append] at hmap
  obtain ⟨-, h2, h3⟩ := hmap
  rw [List.nodup_append] at h2
  obtain ⟨-, -, h2c⟩ := h2
  have hpre : pre.filter (fun r => (mid.map (fun r => r.id)).contains r.id)
      = [] := by
    rw [List.filter_eq_nil_iff]
    intro r hr hcon
    have hm : r.id ∈ mid.map (fun r => r.id) := by
      simpa using hcon
    exact h3 (List.mem_map_of_mem (fun r => r.id) hr)
      (List.mem_append_left _ hm)
  have hmid : mid.filter (fun r => (mid.map (fun r => r.id)).contains r.id)
      = mid := by
    rw [List.filter_eq_self]
    intro r hr
    simpa using List.mem_map_of_mem (fun r => r.id) hr
  have hpost : post.filter (fun r => (mid.map (fun r => r.id)).contains r.id)
      = [] := by
    rw [List.filter_eq_nil_iff]
    intro r hr hcon
    have hm : r.id ∈ mid.map (fun r => r.id) := by
      simpa using hcon
    exact h2c hm (List.mem_map_of_mem (fun r => r.id) hr)
  rw [hpre, hmid, hpost]
  simp

theorem getD_map_ids : ∀ (L : List (List RecordResult)) (j : Nat),
    (L.map (fun c => c.map (fun r => r.id))).getD j []
      = (L.getD j []).map (fun r => r.id) := by
  intro L
  induction L with
  | nil => intro j; simp
  | cons c L ih =>
    intro j
    cases j with
    | zero => simp
    | succ j => simpa using ih j

theorem selectForExecution_nodup_ids (st : List RecordResult) (sid : String)
    (recordIds : Option (List String))
    (hnd : (st.map (fun r => r.id)).Nodup) :
    ((selectForExecution st sid recordIds).map (fun r => r.id)).Nodup := by
  have hsub : List.Sublist (selectForExecution st sid recordIds) st := by
    unfold selectForExecution
    cases recordIds with
    | none => exact (List.filter_sublist _).trans (List.filter_sublist _)
    | some ids => exact (List.filter_sublist _).trans (List.filter_sublist _)
  exact hnd.sublist (hsub.map (fun r => r.id))

theorem sel_decomp_at (sel : List RecordResult) (k : Nat) :
    sel = sel.take (50 * k)
      ++ ((chunksOf50 sel).getD k [] ++ (sel.drop (50 * k)).drop 50) := by
  rw [chunksOf50_getD, List.take_append_drop, List.take_append_drop]

theorem filter_chunk_ids (sel : List RecordResult) (k : Nat)
    (hnd : (sel.map (fun r => r.id)).Nodup) :
    sel.filter (fun r =>
        (((chunksOf50 sel).getD k []).map (fun r => r.id)).contains r.id)
      = (chunksOf50 sel).getD k [] := by
  have hdec := sel_decomp_at sel k
  calc sel.filter (fun r =>
        (((chunksOf50 sel).getD k []).map (fun r => r.id)).contains r.id)
      = (sel.take (50 * k)
          ++ ((chunksOf50 sel).getD k [] ++ (sel.drop (50 * k)).drop 50)).filter
            (fun r =>
              (((chunksOf50 sel).getD k []).map (fun r => r.id)).contains r.id) := by
        rw [← hdec]
    _ = (chunksOf50 sel).getD k [] := by
        refine filter_ids_middle _ _ _ ?_
        rw [← hdec]
        exact hnd

theorem loopFn_id (apiRes : Nat → Kind → Option String)
    (results : List RecordResult) :
    ∀ (idBs : List (List String)) (i : Nat) (e : RecordResult),
      (loopFn apiRes results idBs i e).id = e.id := by
  intro idBs
  induction idBs with
  | nil => intro i e; rfl
  | cons ids rest ih =>
    intro i e
    simp only [loopFn]
    rw [ih]
    split
    · exact batchEntryUpdate_id _ _ _
    · rfl

/-- Every entry of the post-execution store is its pre-execution record
with at most the status merge of the (unique) batch containing it. -/
theorem exec_store_entry (st : List RecordResult) (sid : String)
    (apiRes : Nat → Kind → Option String)
    (hnd : (st.map (fun r => r.id)).Nodup) (k : Nat) (e : RecordResult)
    (he : e ∈ (executeUpdatesInBackground st sid none apiRes).store)
    (hid : e.id ∈ ((chunksOf50 (selectForExecution st sid none)).getD k []).map
      (fun r => r.id)) :
    ∃ e0, e0 ∈ st ∧ e = batchEntryUpdate (apiRes k)
      ((chunksOf50 (selectForExecution st sid none)).getD k []) e0 := by
  have hselnd := selectForExecution_nodup_ids st sid none hnd
  have hstore : (executeUpdatesInBackground st sid none apiRes).store
      = st.map (loopFn apiRes (selectForExecution st sid none)
          ((chunksOf50 (selectForExecution st sid none)).map
            (fun c => c.map (fun r => r.id))) 0) :=
    execBatchesLoop_eq_map apiRes _ _ 0 st
  rw [hstore] at he
  obtain ⟨e0, he0, rfl⟩ := List.mem_map.1 he
  refine ⟨e0, he0, ?_⟩
  have hfn := loopFn_eval apiRes (selectForExecution st sid none)
    ((chunksOf50 (selectForExecution st sid none)).map
      (fun c => c.map (fun r => r.id))) 0 k e0 ?_ ?_
  · rw [hfn]
    rw [getD_map_ids, filter_chunk_ids _ _ hselnd, Nat.zero_add]
  · rw [getD_map_ids, filter_chunk_ids _ _ hselnd]
    have hide : (loopFn apiRes (selectForExecution st sid none)
        ((chunksOf50 (selectForExecution st sid none)).map
          (fun c => c.map (fun r => r.id))) 0 e0).id = e0.id :=
      loopFn_id apiRes _ _ 0 e0
    rw [hide] at hid
    simpa using hid
  · intro j hjk
    rw [getD_map_ids, filter_chunk_ids _ _ hselnd]
    have hide : (loopFn apiRes (selectForExecution st sid none)
        ((chunksOf50 (selectForExecution st sid none)).map
          (fun c => c.map (fun r => r.id))) 0 e0).id = e0.id :=
      loopFn_id apiRes _ _ 0 e0
    rw [hide] at hid
    have hxk : e0.id ∈ (((selectForExecution st sid none).map
        (fun r => r.id)).drop (50 * k)).take 50 := by
      rw [← List.map_drop, ← List.map_take]
      rw [chunksOf50_getD] at hid
      simpa using hid
    rw [Bool.eq_false_iff]
    intro hcon
    have hxj : e0.id ∈ (((selectForExecution st sid none).map
        (fun r => r.id)).drop (50 * j)).take 50 := by
      rw [← List.map_drop, ← List.map_take]
      have hmem : e0.id ∈ ((chunksOf50 (selectForExecution st sid none)).getD
          j []).map (fun r => r.id) := by
        simpa using hcon
      rw [chunksOf50_getD] at hmem
      simpa using hmem
    exact hjk (slice_unique _ hselnd j k e0.id hxj hxk)

/-- C2 (amended): during batch execution, when any of a batch's bulk
calls fails, every entry of that batch — of both kinds — is set to
status `error` with the thrown message attached; when a batch's bulk
calls all succeed its entries are set to `completed` whatever happened
to other batches (execution continues past failed batches); and after
all batches have been attempted the session status is `completed`
regardless of how many entries ended in `error`. -/
theorem c2_amended (st : List RecordResult) (sid : String)
    (apiRes : Nat → Kind → Option String)
    (hnd : (st.map (fun r => r.id)).Nodup) :
    (executeUpdatesInBackground st sid none apiRes).sessionStatus
      = "completed" ∧
    (∀ k e m, e ∈ (executeUpdatesInBackground st sid none apiRes).store →
      e.id ∈ ((chunksOf50 (selectForExecution st sid none)).getD k []).map
        (fun r => r.id) →
      batchThrown (apiRes k)
          ((chunksOf50 (selectForExecution st sid none)).getD k []) = some m →
      e.status = "error" ∧ e.errorMessage = some m) ∧
    (∀ k e, e ∈ (executeUpdatesInBackground st sid none apiRes).store →
      e.id ∈ ((chunksOf50 (selectForExecution st sid none)).getD k []).map
        (fun r => r.id) →
      batchThrown (apiRes k)
          ((chunksOf50 (selectForExecution st sid none)).getD k []) = none →
      e.status = "completed") := by
  refine ⟨rfl, ?_, ?_⟩
  · intro k e m he hid hthr
    obtain ⟨e0, -, heq⟩ := exec_store_entry st sid apiRes hnd k e he hid
    rw [heq]
    unfold batchEntryUpdate
    rw [hthr]
    exact ⟨rfl, rfl⟩
  · intro k e he hid hthr
    obtain ⟨e0, -, heq⟩ := exec_store_entry st sid apiRes hnd k e he hid
    rw [heq]
    unfold batchEntryUpdate
    rw [hthr]

/-- C2 witness: the amended theorem applied to the concrete mixed batch
in which the company bulk call throws `boom`: the session finishes
`completed` and the batch's first entry (the contact) carries the error
status and message. -/
theorem c2_amended_witness :
    (executeUpdatesInBackground [entryContact, entryCompany] "s1" none
        companyFails).sessionStatus = "completed" ∧
    ((executeUpdatesInBackground [entryContact, entryCompany] "s1" none
        companyFails).store.getD 0 entryContact).status = "error" ∧
    ((executeUpdatesInBackground [entryContact, entryCompany] "s1" none
        companyFails).store.getD 0 entryContact).errorMessage
      = some "boom" := by
  have h := c2_amended [entryContact, entryCompany] "s1" companyFails
    (by decide)
  refine ⟨h.1, ?_⟩
  exact h.2.1 0 _ "boom" (by decide) (by decide) (by decide)

theorem mem_enumFrom_snd {α : Type} : ∀ (l : List α) (n : Nat) (p : Nat × α),
    p ∈ l.enumFrom n → p.2 ∈ l := by
  intro l
  induction l with
  | nil => intro n p hp; simp at hp
  | cons a l ih =>
    intro n p hp
    rcases List.mem_cons.1 hp with rfl | hp
    · exact List.mem_cons_self a l
    · exact List.mem_cons_of_mem a (ih (n + 1) p hp)

theorem rowEntries_status (search : String → String → SearchOut) (row : Row)
    (keyCols : List String) (i : Nat) (sid : String) :
    ∀ ins ∈ rowEntries search row keyCols i sid,
      ins.status = "found" ∨ ins.status = "not_found" := by
  intro ins hins
  unfold rowEntries at hins
  cases hm : (matchRow search row keyCols).1 with
  | some t =>
    obtain ⟨m, keyCol, searchValue⟩ := t
    rw [hm] at hins
    obtain ⟨f, -, rfl⟩ := List.mem_map.1 hins
    left
    rfl
  | none =>
    rw [hm] at hins
    obtain ⟨f, -, rfl⟩ := List.mem_map.1 hins
    right
    rfl

theorem processFileStore_no_success (st : List RecordResult) (data : List Row)
    (search : Nat → String → String → SearchOut) (keyCols : List String)
    (sid : String) (idFn : Nat → String)
    (h : ∀ e ∈ st, e.status ≠ "success") :
    ∀ e ∈ processFileStore st data search keyCols sid idFn,
      e.status ≠ "success" := by
  intro e he
  unfold processFileStore at he
  rcases List.mem_append.1 he with h1 | h1
  · exact h e h1
  · obtain ⟨p, hp, rfl⟩ := List.mem_map.1 h1
    have hp2 : p.2 ∈ (data.enum.map
        (fun q => rowEntries (search q.1) q.2 keyCols q.1 sid)).flatten :=
      mem_enumFrom_snd _ 0 p hp
    obtain ⟨sub, hsub, hmem⟩ := List.mem_flatten.1 hp2
    obtain ⟨q, -, rfl⟩ := List.mem_map.1 hsub
    rcases rowEntries_status _ _ _ _ _ p.2 hmem with hst | hst <;>
      simp [createRecordResult, hst]

theorem loopFn_status (apiRes : Nat → Kind → Option String)
    (results : List RecordResult) :
    ∀ (idBs : List (List String)) (i : Nat) (e : RecordResult),
      (loopFn apiRes results idBs i e).status = e.status ∨
      (loopFn apiRes results idBs i e).status = "completed" ∨
      (loopFn apiRes results idBs i e).status = "error" := by
  intro idBs
  induction idBs with
  | nil => intro i e; left; rfl
  | cons ids rest ih =>
    intro i e
    simp only [loopFn]
    rcases ih (i + 1) (if ((results.filter (fun r => ids.contains r.id)).map
        (fun r => r.id)).contains e.id = true
      then batchEntryUpdate (apiRes i) (results.filter (fun r => ids.contains r.id)) e
      else e) with hs | hs | hs
    · rw [hs]
      split
      · unfold batchEntryUpdate
        split
        · right; left; rfl
        · right; right; rfl
      · left; rfl
    · right; left; exact hs
    · right; right; exact hs

theorem exec_no_success (st : List RecordResult) (sid : String)
    (recordIds : Option (List String)) (apiRes : Nat → Kind → Option String)
    (h : ∀ e ∈ st, e.status ≠ "success") :
    ∀ e ∈ (executeUpdatesInBackground st sid recordIds apiRes).store,
      e.status ≠ "success" := by
  intro e he
  have hstore : (executeUpdatesInBackground st sid recordIds apiRes).store
      = st.map (loopFn apiRes (selectForExecution st sid recordIds)
          ((chunksOf50 (selectForExecution st sid recordIds)).map
            (fun c => c.map (fun r => r.id))) 0) :=
    execBatchesLoop_eq_map apiRes _ _ 0 st
  rw [hstore] at he
  obtain ⟨e0, he0, rfl⟩ := List.mem_map.1 he
  rcases loopFn_status apiRes (selectForExecution st sid recordIds)
    ((chunksOf50 (selectForExecution st sid recordIds)).map
      (fun c => c.map (fun r => r.id))) 0 e0 with hs | hs | hs <;> rw [hs]
  · exact h e0 he0
  · simp
  · simp

theorem revertLoop_no_success (ok : Nat → Bool) :
    ∀ (recs : List RecordResult) (k : Nat) (st : List RecordResult),
      (∀ e ∈ st, e.status ≠ "success") →
      ∀ e ∈ revertLoop ok k recs st, e.status ≠ "success" := by
  intro recs
  induction recs with
  | nil => intro k st h e he; exact h e he
  | cons r rest ih =>
    intro k st h e he
    simp only [revertLoop] at he
    cases hcv : r.currentValue with
    | none =>
      simp only [hcv] at he
      exact ih k st h e he
    | some cv =>
      simp only [hcv] at he
      by_cases hok : ok k = true
      · rw [if_pos hok] at he
        refine ih (k + 1) _ ?_ e he
        intro e2 he2
        unfold updateById at he2
        obtain ⟨e3, he3, rfl⟩ := List.mem_map.1 he2
        split
        · simp
        · exact h e3 he3
      · rw [if_neg hok] at he
        exact h e he

theorem applyEdits_no_success (upds : List (String × PartialRecord)) :
    ∀ (st : List RecordResult),
      (∀ u ∈ upds, u.2.status = none) →
      (∀ e ∈ st, e.status ≠ "success") →
      ∀ e ∈ applyEdits st upds, e.status ≠ "success" := by
  induction upds with
  | nil => intro st _ h e he; exact h e he
  | cons u rest ih =>
    intro st hu h e he
    refine ih _ (fun u2 hu2 => hu u2 (List.mem_cons_of_mem _ hu2)) ?_ e he
    intro e2 he2
    unfold updateById at he2
    obtain ⟨e3, he3, rfl⟩ := List.mem_map.1 he2
    split
    · have hs := hu u (List.mem_cons_self u rest)
      simpa [applyPartial, hs] using h e3 he3
    · exact h e3 he3

theorem reachSafe_no_success (st : List RecordResult) (h : ReachSafe st) :
    ∀ e ∈ st, e.status ≠ "success" := by
  induction h with
  | init => intro e he; simp at he
  | process st data search keyCols sid idFn _ ih =>
    exact processFileStore_no_success st data search keyCols sid idFn ih
  | execute st sid recordIds apiRes _ ih =>
    exact exec_no_success st sid recordIds apiRes ih
  | undo st sid ok _ ih =>
    exact revertLoop_no_success ok (undoSelect st sid) 0 st ih
  | edit st upds hu _ ih =>
    exact applyEdits_no_success upds st hu ih

/-- C10 (amended): none of the background pipeline operations — matching
(`found`/`not_found`), batch execution (`completed`/`error`) or undo
(`found`) — ever assigns status `success`, so in every store state
reachable without a preview PATCH that writes the status field, the
`successful` count computed by `getExecutionResults` is 0; a preview
PATCH carrying a status field can, however, break this (see the
counterexample). -/
theorem c10_amended (st : List RecordResult) (h : ReachSafe st)
    (sid : String) : successCount st sid = 0 := by
  have key := reachSafe_no_success st h
  unfold successCount
  rw [List.length_eq_zero, List.filter_eq_nil_iff]
  intro r hr
  have hmem : r ∈ st := List.mem_of_mem_filter hr
  simpa using key r hmem

/-- C10 witness: the amended theorem applied to the store produced by a
concrete matching pass (reachable without status-writing edits). -/
theorem c10_amended_witness : successCount stNotFound "s1" = 0 :=
  c10_amended stNotFound
    (ReachSafe.process [] [rowEN] searchNone ["EMAIL"] "s1" idFnR
      ReachSafe.init) "s1"

end MassUpdater
